import Mathlib

/-!
Verification of `build_changelog.py` (droidian-releng/playground-debian-native).

The development shallowly embeds the script: Python strings are Lean `String`s,
Python string primitives (`replace`, `split`, `join`, `strip`, slicing) are
re-implemented below with structural recursion so that every definition
evaluates by kernel reduction; the git repository is a record holding the data
the script reads (tags, the commit walk, file contents); code that can raise is
embedded in `Except String` (the error string standing for the raised message);
the `__main__` block becomes a pure function producing an outcome record.
-/

/-- Model of Python `str.replace(pat, rep)` on character lists, for non-empty
`pat`: the counter argument skips the remaining characters of a pattern
occurrence that has already been replaced. Leftmost, non-overlapping. -/
def replaceGo (pat rep : List Char) : Nat → List Char → List Char
  | _, [] => []
  | Nat.succ k, _ :: cs => replaceGo pat rep k cs
  | 0, c :: cs =>
    if List.isPrefixOf pat (c :: cs) then
      rep ++ replaceGo pat rep (pat.length - 1) cs
    else
      c :: replaceGo pat rep 0 cs

/-- Model of Python `str.replace("", rep)`: `rep` is inserted before every
character and once at the end. -/
def interleaveRep (rep : List Char) : List Char → List Char
  | [] => rep
  | c :: cs => rep ++ c :: interleaveRep rep cs

/-- Python `s.replace(pat, rep)`. -/
def pyReplace (s pat rep : String) : String :=
  if pat.data.isEmpty then String.mk (interleaveRep rep.data s.data)
  else String.mk (replaceGo pat.data rep.data 0 s.data)

/-- Model of Python `str.split(sep)` for non-empty `sep`: the counter argument
skips the remaining characters of a separator occurrence already consumed;
the accumulator holds the current token reversed. -/
def pySplitGo (sep : List Char) : Nat → List Char → List Char → List (List Char)
  | _, cur, [] => [cur.reverse]
  | Nat.succ k, cur, _ :: cs => pySplitGo sep k cur cs
  | 0, cur, c :: cs =>
    if List.isPrefixOf sep (c :: cs) then
      cur.reverse :: pySplitGo sep (sep.length - 1) [] cs
    else
      pySplitGo sep 0 (c :: cur) cs

/-- Python `s.split(sep)` (non-empty separator; the script never splits on an
empty separator, which Python rejects with `ValueError`). -/
def pySplit (s sep : String) : List String :=
  (pySplitGo sep.data 0 [] s.data).map String.mk

/-- Python `sep.join(parts)`. -/
def joinWith (sep : String) : List String → String
  | [] => ""
  | [x] => x
  | x :: xs => x ++ sep ++ joinWith sep xs

/-- Python `s.split(sep, 1)`: at most one split; the remainder is left intact
(reconstructed by re-joining the tail of the full split). -/
def pySplit1 (s sep : String) : List String :=
  match pySplit s sep with
  | [] => []
  | [x] => [x]
  | x :: rest => [x, joinWith sep rest]

/-- Characters Python's `str.strip()` removes. -/
def pyIsSpace (c : Char) : Bool :=
  c == ' ' || c == '\t' || c == '\n' || c == '\r' || c == '\x0b' || c == '\x0c'

/-- Python `s.strip()`. -/
def pyStrip (s : String) : String :=
  String.mk (((s.data.dropWhile pyIsSpace).reverse.dropWhile pyIsSpace).reverse)

/-- Python `s.startswith(pre)`. -/
def pyStartswith (s pre : String) : Bool :=
  List.isPrefixOf pre.data s.data

/-- Python `s[0:n]`. -/
def pyTakeStr (s : String) (n : Nat) : String :=
  String.mk (s.data.take n)

/-- Python `s.lower()` restricted to ASCII (the only case the script's inputs
exercise; `str.lower` is Unicode-aware in general). -/
def pyLowerChar (c : Char) : Char :=
  if 'A' ≤ c && c ≤ 'Z' then Char.ofNat (c.toNat + 32) else c


/-- Character class negated by `re.compile("[^a-z0-9_]+")`. -/
def slugAllowed (c : Char) : Bool :=
  ('a' ≤ c && c ≤ 'z') || ('0' ≤ c && c ≤ '9') || c == '_'

/-- Operational model of `not_allowed_regex.sub(".", ·)`: `re.sub` with the
pattern `[^a-z0-9_]+` replaces each maximal run of disallowed characters by a
single dot; the Boolean flag records whether the previous character belonged
to a run already replaced. -/
def slugGo : Bool → List Char → List Char
  | _, [] => []
  | prevBad, c :: cs =>
    if slugAllowed c then c :: slugGo false cs
    else if prevBad then slugGo prevBad cs
    else '.' :: slugGo true cs

/-- Model of `slugify(string)`, that is `not_allowed_regex.sub(".", string.lower())`. -/
def slugify (s : String) : String :=
  String.mk (slugGo false (s.data.map pyLowerChar))

/-- Model of `sanitize_tag_version(version)`:
`version.replace("_", "~").replace("%", ":")`. -/
def sanitize_tag_version (version : String) : String :=
  pyReplace (pyReplace version "_" "~") "%" ":"

/-- Model of `none_on_exception(*args, **kwargs)`: the body calls `func(...)`
inside `try`, but `func` is neither a parameter of the function (the signature
is `(*args, **kwargs)`) nor defined anywhere at module scope, so every call
raises `NameError` inside the `try` block and the bare `except` turns it into
`None`.  Hence the embedding returns `none` for every argument tuple. -/
def none_on_exception {α ρ : Type} (_args : ρ) : Option α := none

/-- The claim's reading of `slugify`: every maximal run of characters outside
`[a-z0-9_]` in the lowercased string is replaced by a single `.` (written
with an explicit skip over the rest of the run). -/
def slugRunsSpec : List Char → List Char
  | [] => []
  | c :: cs =>
    if slugAllowed c then c :: slugRunsSpec cs
    else '.' :: slugRunsSpec (cs.dropWhile (fun d => !(slugAllowed d)))
termination_by l => l.length
decreasing_by
  all_goals simp_wf
  all_goals
    first
    | omega
    | (have hle : ∀ (l : List Char),
          (l.dropWhile (fun d => !(slugAllowed d))).length ≤ l.length := by
          intro l
          induction l with
          | nil => exact Nat.le_refl _
          | cons x xs ih =>
            cases hx : slugAllowed x with
            | true => simp [List.dropWhile, hx]
            | false =>
              simp only [List.dropWhile, hx, Bool.not_false]
              exact Nat.le_succ_of_le ih
       exact Nat.lt_succ_of_le (hle _))

/-- Rendering of `slugify` according to the claim's wording. -/
def slugifySpec (s : String) : String :=
  String.mk (slugRunsSpec (s.data.map pyLowerChar))



/-- Days since 1970-01-01 to (year, month, day) in the proleptic Gregorian
calendar (the civil-from-days algorithm). -/
def civilFromDays (z : Nat) : Nat × Nat × Nat :=
  let z' := z + 719468
  let era := z' / 146097
  let doe := z' % 146097
  let yoe := (doe - doe / 1460 + doe / 36524 - doe / 146096) / 365
  let y := yoe + era * 400
  let doy := doe - (365 * yoe + yoe / 4 - yoe / 100)
  let mp := (5 * doy + 2) / 153
  let d := doy - (153 * mp + 2) / 5 + 1
  let m := if mp < 10 then mp + 3 else mp - 9
  (if m ≤ 2 then y + 1 else y, m, d)

/-- Zero-padded two-digit decimal. -/
def pad2 (n : Nat) : String :=
  if n < 10 then "0" ++ toString n else toString n

/-- Zero-padded four-digit decimal (`%Y`). -/
def pad4 (n : Nat) : String :=
  if n < 10 then "000" ++ toString n
  else if n < 100 then "00" ++ toString n
  else if n < 1000 then "0" ++ toString n
  else toString n

/-- Model of `datetime.datetime.fromtimestamp(ts).strftime("%Y%m%d%H%M%S")`, with the
process-local timezone fixed to UTC in the model. -/
def formatTimestamp (ts : Nat) : String :=
  let days := ts / 86400
  let rem := ts % 86400
  let ymd := civilFromDays days
  pad4 ymd.1 ++ pad2 ymd.2.1 ++ pad2 ymd.2.2 ++
    pad2 (rem / 3600) ++ pad2 (rem % 3600 / 60) ++ pad2 (rem % 60)

/-- Weekday abbreviation from days-since-epoch mod 7 (1970-01-01 was a
Thursday). -/
def weekdayName (n : Nat) : String :=
  match n with
  | 0 => "Thu" | 1 => "Fri" | 2 => "Sat" | 3 => "Sun"
  | 4 => "Mon" | 5 => "Tue" | _ => "Wed"

/-- Month abbreviation (1-based). -/
def monthName (m : Nat) : String :=
  match m with
  | 1 => "Jan" | 2 => "Feb" | 3 => "Mar" | 4 => "Apr" | 5 => "May" | 6 => "Jun"
  | 7 => "Jul" | 8 => "Aug" | 9 => "Sep" | 10 => "Oct" | 11 => "Nov" | _ => "Dec"

/-- The `%z`-style rendering of the committer timezone: git stores seconds
west of UTC, the datetime offset is its negation, rendered `±HHMM`. -/
def formatTzOffset (secsWest : Int) : String :=
  let off := -secsWest
  let a := off.natAbs
  (if off < 0 then "-" else "+") ++ pad2 (a / 3600) ++ pad2 (a % 3600 / 60)

/-- Model of `email.utils.format_datetime(git.objects.util.from_timestamp(ts, tz))`:
RFC-2822 date of the committer-local wall-clock time (timestamp minus seconds
west of UTC; the model clamps at the epoch, never reached by the inputs the
development evaluates). -/
def formatCommitDate (ts : Nat) (secsWest : Int) : String :=
  let lt := ((ts : Int) - secsWest).toNat
  let days := lt / 86400
  let rem := lt % 86400
  let ymd := civilFromDays days
  weekdayName (days % 7) ++ ", " ++ pad2 ymd.2.2 ++ " " ++ monthName ymd.2.1 ++
    " " ++ pad4 ymd.1 ++ " " ++ pad2 (rem / 3600) ++ ":" ++
    pad2 (rem % 3600 / 60) ++ ":" ++ pad2 (rem % 60) ++ " " ++
    formatTzOffset secsWest


/-- A git commit as the script reads it: `hexsha`, `parents` (hexshas),
`author.name`, `author.email`, `committed_date` (Unix seconds),
`committer_tz_offset` (seconds west of UTC), `message`. -/
structure Commit where
  hexsha : String
  parents : List String
  author_name : String
  author_email : String
  committed_date : Nat
  committer_tz_offset : Int
  message : String
deriving DecidableEq, Repr

/-- A git tag reference: its name and the commit it points to. -/
structure GitTag where
  name : String
  commitHexsha : String
deriving DecidableEq, Repr

/-- The slice of `git.Repo` the script consumes: the tag list, the commit walk
`iter_commits(rev=commit_hash)` (`log`, newest first, starting at the
package's start commit), the output of
`git describe --tags --always --abbrev=0 --match=<prefix>*`, and the
working-directory files (relative path, contents). -/
structure GitRepo where
  tags : List GitTag
  log : List Commit
  describeOutput : String
  files : List (String × String)
deriving DecidableEq, Repr

/-- Model of `os.path.exists` followed by `open(...).read()` on a working-directory file. -/
def lookupFile (files : List (String × String)) (path : String) : Option String :=
  (files.find? (fun kv => kv.1 == path)).map (fun kv => kv.2)

/-- Python `f.readline()`: the first line, with its trailing newline when one
follows it. -/
def readline (s : String) : String :=
  match pySplit s "\n" with
  | [] => ""
  | [only] => only
  | first :: _ => first ++ "\n"

/-- The `SlimPackage` object after `__init__`: `comment` already holds
`slugify(comment.replace(branch_prefix, ""))`. -/
structure SlimPackage where
  git_repository : GitRepo
  commit_hash : String
  tag : Option String
  tagPrefix : String
  branch : Option String
  branchPrefix : String
  comment : String
deriving DecidableEq, Repr

/-- Model of `SlimPackage.__init__`. -/
def SlimPackage.init (git_repository : GitRepo) (commit_hash : String)
    (tag : Option String) (tagPrefix : String) (branch : Option String)
    (branchPrefix : String) (comment : String) : SlimPackage :=
  ⟨git_repository, commit_hash, tag, tagPrefix, branch, branchPrefix,
    slugify (pyReplace comment branchPrefix "")⟩

/-- Model of `SlimPackage.get_version_from_changelog`: second space-delimited token of
the first line of `debian/changelog`, without its first and last character;
`None` when the file is absent or the first line has no second token (the
`IndexError` is swallowed). -/
def SlimPackage.get_version_from_changelog (p : SlimPackage) : Option String :=
  match lookupFile p.git_repository.files "debian/changelog" with
  | none => none
  | some content =>
    match pySplit (readline content) " " with
    | _ :: tok :: _ => some (String.mk (tok.data.drop 1).dropLast)
    | _ => none

/-- Model of the `SlimPackage.name` property: the token after `Source: ` in `debian/control`;
raises when the file is missing or holds no `Source: ` line. -/
def SlimPackage.name (p : SlimPackage) : Except String String :=
  match lookupFile p.git_repository.files "debian/control" with
  | none => Except.error "Unable to find debian/control"
  | some content =>
    match (pySplit content "\n").find? (fun l => pyStartswith l "Source: ") with
    | none => Except.error "Unable to determine the source package name!"
    | some line => Except.ok ((pySplit1 (pyStrip line) " ").getLastD "")

/-- Model of the `SlimPackage.release` property: tag (prefix removed, first `/`-segment) if a tag
was supplied, else branch (prefix removed, first segment), else an error. -/
def SlimPackage.release (p : SlimPackage) : Except String String :=
  match p.tag with
  | some t => Except.ok ((pySplit (pyReplace t p.tagPrefix "") "/").headD "")
  | none =>
    match p.branch with
    | some b => Except.ok ((pySplit (pyReplace b p.branchPrefix "") "/").headD "")
    | none => Except.error "At least one between tag and branch must be specified"

/-- The intent of the second `_starting_version_strategies` entry (the lambda
passed to `none_on_exception` at line 237): strip the tag prefix from the
describe output and take the second `/`-segment, `None` on `IndexError`. -/
def describe_strategy (repo : GitRepo) (pfx : String) : Option String :=
  (pySplit (pyReplace repo.describeOutput pfx "") "/").get? 1

/-- The `for strategy in _starting_version_strategies` loop: the value left in
`starting_version` after the first strategy returning non-`None` breaks the
loop (`none` only when every strategy yields `None`). -/
def firstSomeStrategy : List (Option String) → Option String
  | [] => none
  | some v :: _ => some v
  | none :: rest => firstSomeStrategy rest

/-- The resolved `starting_version`: supplied tag (prefix removed, last
`/`-segment), else the describe lookup through the broken
`none_on_exception`, else the old changelog's version, else `"0.0.0"`.
(`"None"` is how Python would render a `None` result in the `%s` template;
it is unreachable because the last strategy is constant.) -/
def SlimPackage.startingVersion (p : SlimPackage) : String :=
  (firstSomeStrategy
    [ p.tag.map (fun t => (pySplit (pyReplace t p.tagPrefix "") "/").getLastD ""),
      none_on_exception (p.git_repository, p.tagPrefix),
      p.get_version_from_changelog,
      some "0.0.0" ]).getD "None"

/-- Model of the `SlimPackage.version` property:
`"%s+git%s" % (starting_version, ".".join([timestamp, commit_hash[0:7], comment]))`
with the timestamp taken from `repo.commit(rev=commit_hash).committed_date`
(an error when the start commit cannot be resolved). -/
def SlimPackage.version (p : SlimPackage) : Except String String :=
  match p.git_repository.log.find? (fun c => c.hexsha == p.commit_hash) with
  | none => Except.error ("BadName: " ++ p.commit_hash)
  | some c =>
    Except.ok (p.startingVersion ++ "+git" ++
      joinWith "."
        [formatTimestamp c.committed_date, pyTakeStr p.commit_hash 7, p.comment])

/-- The `ChangelogEntry` namedtuple; `contents` models the `OrderedDict`
author → message list as an insertion-ordered association list. -/
structure ChangelogEntry where
  author : String
  mail : String
  contents : List (String × List String)
  date : String
deriving DecidableEq, Repr

/-- Model of `entry.contents.setdefault(author, []).insert(0, msg)`: prepend `msg` to
the author's list, appending a fresh key when the author is new
(`OrderedDict` keeps insertion order). -/
def odInsert (contents : List (String × List String)) (author msg : String) :
    List (String × List String) :=
  if contents.any (fun kv => kv.1 == author) then
    contents.map (fun kv => if kv.1 == author then (kv.1, msg :: kv.2) else kv)
  else
    contents ++ [(author, [msg])]

/-- Lookup in the ordered mapping. -/
def odLookup (contents : List (String × List String)) (author : String) :
    Option (List String) :=
  (contents.find? (fun kv => kv.1 == author)).map (fun kv => kv.2)

/-- Model of `commit.message.split("\n")[0]`. -/
def firstLine (message : String) : String :=
  (pySplit message "\n").headD ""

/-- The `changelog_entry(...)` construction at lines 313/370: metadata from
the commit opening the entry, empty contents. -/
def newEntry (c : Commit) : ChangelogEntry :=
  { author := c.author_name
    mail := c.author_email
    contents := []
    date := formatCommitDate c.committed_date c.committer_tz_offset }

/-- Recording one commit in an entry (lines 325/383). -/
def addCommit (e : ChangelogEntry) (c : Commit) : ChangelogEntry :=
  { e with contents := odInsert e.contents c.author_name (firstLine c.message) }

/-- The entry accumulated over one segment of the walk: opened at commit `c`,
then fed `c` and the following commits `cs` in walk order. -/
def segEntry (c : Commit) (cs : List Commit) : ChangelogEntry :=
  cs.foldl addCommit (addCommit (newEntry c) c)

/-- The `"content"` field of the rendered template: one block per author in
insertion order, `  [ author ]` headers only when the entry has more than one
author, one `  * message` line per message, blocks joined by blank lines. -/
def renderContent (contents : List (String × List String)) : String :=
  joinWith "\n\n"
    (contents.map (fun kv =>
      let msgs := joinWith "\n" (kv.2.map (fun m => "  * " ++ m))
      if contents.length > 1 then "  [ " ++ kv.1 ++ " ]\n" ++ msgs else msgs))

/-- Interpolation of the fixed `DEBIAN_CHANGELOG_TEMPLATE` text. -/
def DEBIAN_CHANGELOG_TEMPLATE (name version release content author mail date :
    String) : String :=
  name ++ " (" ++ version ++ ") " ++ release ++ "; urgency=medium\n\n" ++
    content ++ "\n\n -- " ++ author ++ " <" ++ mail ++ ">  " ++ date ++ "\n\n"

/-- The tag dictionary of `iter_changelog` (lines 288-292): hexsha → tag name
with the prefix removed, for tags whose name starts with the prefix; a later
tag on the same commit overwrites an earlier one, as in a dict comprehension. -/
def tagsMap (p : SlimPackage) : List (String × String) :=
  (p.git_repository.tags.filter (fun t => pyStartswith t.name p.tagPrefix)).map
    (fun t => (t.commitHexsha, pyReplace t.name p.tagPrefix ""))

/-- Dict lookup in `tagsMap` (last binding wins). -/
def lookupTag (m : List (String × String)) (h : String) : Option String :=
  (m.reverse.find? (fun kv => kv.1 == h)).map (fun kv => kv.2)

/-- The boundary test of line 302: a known tagged commit other than the start
commit, or a parentless (root) commit. -/
def isBoundary (tags : List (String × String)) (startHash : String)
    (c : Commit) : Bool :=
  ((lookupTag tags c.hexsha).isSome && !(c.hexsha == startHash)) || c.parents.isEmpty

/-- The generator loop of `iter_changelog` (lines 300-389).  Returns the
stanzas yielded in order, paired with `some msg` when the loop raises after
them: `ValueError` when `nearest_version.split("/")` does not unpack into
exactly two names, `AttributeError` when a tag boundary is hit with no entry
in progress (only possible when the first walked commit is tagged and differs
from the start hash), and the propagated `self.name` exception at the first
yield.  At a boundary with parents the next `nearest_version` is the tag
dictionary entry (the `getD` default is unreachable: the boundary test
guarantees the lookup succeeds). -/
def walk (tags : List (String × String)) (startHash : String)
    (nameE : Except String String) :
    String → Option ChangelogEntry → List Commit → List String × Option String
  | _, _, [] => ([], none)
  | nearest, entry, c :: cs =>
    if isBoundary tags startHash c then
      match pySplit nearest "/" with
      | [release, version] =>
        match (if c.parents.isEmpty then
                some (addCommit (entry.getD (newEntry c)) c)
              else entry) with
        | none => ([], some "AttributeError: NoneType object has no attribute contents")
        | some e =>
          match nameE with
          | Except.error msg => ([], some msg)
          | Except.ok nm =>
            let stanza := DEBIAN_CHANGELOG_TEMPLATE nm (sanitize_tag_version version)
              release (renderContent e.contents) e.author e.mail e.date
            let nearest' := if c.parents.isEmpty then nearest
              else (lookupTag tags c.hexsha).getD nearest
            let rest := walk tags startHash nameE nearest'
              (some (addCommit (newEntry c) c)) cs
            (stanza :: rest.1, rest.2)
      | _ => ([], some "ValueError: nearest_version.split did not unpack to two values")
    else
      walk tags startHash nameE nearest
        (some (addCommit (entry.getD (newEntry c)) c)) cs

/-- Model of `SlimPackage.iter_changelog`: build the tag dictionary, seed
`nearest_version` with `"%s/%s" % (self.release, self.version)` (each of the
two properties may raise, in that order), then run the walk over
`iter_commits(rev=commit_hash)` with no entry in progress. -/
def SlimPackage.iter_changelog (p : SlimPackage) : List String × Option String :=
  match p.release with
  | Except.error e => ([], some e)
  | Except.ok release =>
    match p.version with
    | Except.error e => ([], some e)
    | Except.ok version =>
      walk (tagsMap p) p.commit_hash p.name (release ++ "/" ++ version) none
        p.git_repository.log

/-- Observable outcome of the `__main__` block (after the repository loaded):
the line printed to stdout, whether `open("debian/changelog", "w")` ran
(opening with mode `"w"` truncates the file), the stanzas written before any
failure, and the propagated exception message if one aborted the run. -/
structure MainOutcome where
  printed : Option String
  changelogOpened : Bool
  written : List String
  fatalError : Option String
deriving DecidableEq, Repr

/-- The `__main__` block, lines 443-461: build the package, compute the
version first (so the old changelog is still readable), print it, open
`debian/changelog` for writing, then write each stanza the generator yields;
a generator exception leaves the stanzas already written in the file. -/
def mainRun (p : SlimPackage) : MainOutcome :=
  match p.version with
  | Except.error e => ⟨none, false, [], some e⟩
  | Except.ok v =>
    let r := p.iter_changelog
    ⟨some ("I: Resulting version is " ++ v), true, r.1, r.2⟩

instance {ε α : Type} [DecidableEq ε] [DecidableEq α] : DecidableEq (Except ε α) :=
  fun a b =>
    match a, b with
    | Except.ok x, Except.ok y =>
      if h : x = y then isTrue (by rw [h]) else isFalse (by intro hc; cases hc; exact h rfl)
    | Except.error x, Except.error y =>
      if h : x = y then isTrue (by rw [h]) else isFalse (by intro hc; cases hc; exact h rfl)
    | Except.ok _, Except.error _ => isFalse (by intro hc; cases hc)
    | Except.error _, Except.ok _ => isFalse (by intro hc; cases hc)

/-- Root commit fixture. -/
def rootC : Commit :=
  ⟨"cccccccc", [], "Alice", "alice@example.com", 0, 0, "Initial commit\n\nlong body"⟩

/-- Tagged middle commit fixture. -/
def tagC : Commit :=
  ⟨"bbbbbbbb", ["cccccccc"], "Bob", "bob@example.com", 86400, 0, "Tagged commit"⟩

/-- Head commit fixture. -/
def headC : Commit :=
  ⟨"aaaaaaaa", ["bbbbbbbb"], "Alice", "alice@example.com", 172800, 0, "Head commit"⟩

/-- Three-commit repository with one prefixed tag on the middle commit. -/
def repo5 : GitRepo :=
  ⟨[⟨"hybris-mobian/bullseye/1.0", "bbbbbbbb"⟩], [headC, tagC, rootC],
    "hybris-mobian/bullseye/1.0", [("debian/control", "Source: foo\n")]⟩

/-- Package built on `repo5` from the head commit, no tag supplied. -/
def pkg5 : SlimPackage :=
  SlimPackage.init repo5 "aaaaaaaa" none "hybris-mobian/" (some "feature/bullseye")
    "feature/" "release"

/-- Single-commit repository whose describe lookup would find a prefixed tag,
with no pre-existing changelog. -/
def repoC1 : GitRepo :=
  ⟨[⟨"hybris-mobian/bullseye/1.2.3", "cccccccc"⟩], [rootC],
    "hybris-mobian/bullseye/1.2.3", [("debian/control", "Source: foo\n")]⟩

/-- Package on `repoC1`, no tag supplied on the command line. -/
def pC1 : SlimPackage :=
  SlimPackage.init repoC1 "cccccccc" none "hybris-mobian/" (some "feature/bullseye")
    "feature/" "release"

/-- Single-commit repository whose working directory lacks `debian/control`
but has a pre-existing changelog. -/
def repoC2 : GitRepo :=
  ⟨[], [rootC], "cccccccc", [("debian/changelog", "old (9.9.9) stable; urgency=medium\n")]⟩

/-- Package on `repoC2`. -/
def pC2 : SlimPackage :=
  SlimPackage.init repoC2 "cccccccc" none "hybris-mobian/" (some "feature/bullseye")
    "feature/" "release"

/-- Single-commit repository with no tags and no pre-existing changelog. -/
def repoC3 : GitRepo :=
  ⟨[], [rootC], "cccccccc", [("debian/control", "Source: foo\n")]⟩

/-- Package on `repoC3`: the base version falls through to `"0.0.0"`. -/
def pC3 : SlimPackage :=
  SlimPackage.init repoC3 "cccccccc" none "hybris-mobian/" (some "feature/bullseye")
    "feature/" "release"

/-- Package on `repoC3` with a supplied tag whose version part contains an
underscore. -/
def pC4 : SlimPackage :=
  SlimPackage.init repoC3 "cccccccc" (some "hybris-mobian/bullseye/1.2_3")
    "hybris-mobian/" none "feature/" "release"

/-- Package with neither tag nor branch. -/
def pNoRel : SlimPackage :=
  SlimPackage.init repoC3 "cccccccc" none "hybris-mobian/" none "feature/" "release"

/-- First lines of the commits by a given author, in walk (encounter) order. -/
def authorMsgs (cs : List Commit) (a : String) : List String :=
  (cs.filter (fun c => c.author_name == a)).map (fun c => firstLine c.message)

/-- C10: `none_on_exception` returns `None` on every argument tuple (its body
refers to the unbound name `func`, so the call always raises and the bare
`except` yields `None`); consequently the describe-based second version
strategy never contributes: the resolved version does not depend on what
`git describe` would report. -/
theorem c10_none_on_exception_always_none :
    (∀ (α ρ : Type) (args : ρ), @none_on_exception α ρ args = none) ∧
    (∀ (p : SlimPackage) (d : String),
      SlimPackage.version
        { p with git_repository := { p.git_repository with describeOutput := d } } =
        SlimPackage.version p) :=
  ⟨fun _ _ _ => rfl, fun _ _ => rfl⟩

/-- C6: the release is the supplied tag with the tag prefix removed and the
first `/`-segment taken; with no tag it is the branch with the branch prefix
removed and the first segment taken; accessing the property raises exactly
when both tag and branch are absent. -/
theorem c6_release_resolution (p : SlimPackage) :
    (∀ t, p.tag = some t →
      p.release = Except.ok ((pySplit (pyReplace t p.tagPrefix "") "/").headD "")) ∧
    (∀ b, p.tag = none → p.branch = some b →
      p.release = Except.ok ((pySplit (pyReplace b p.branchPrefix "") "/").headD "")) ∧
    (p.release = Except.error "At least one between tag and branch must be specified" ↔
      p.tag = none ∧ p.branch = none) := by
  refine ⟨fun t ht => ?_, fun b ht hb => ?_, ?_⟩
  · simp [SlimPackage.release, ht]
  · simp [SlimPackage.release, ht, hb]
  · unfold SlimPackage.release
    cases htag : p.tag with
    | some t => simp
    | none => cases hbr : p.branch with
      | some b => simp
      | none => simp

/-- Witness for C6 at concrete packages: branch-derived release, and the
error when neither tag nor branch is given. -/
theorem c6_release_resolution_witness :
    pkg5.release = Except.ok "bullseye" ∧
    pNoRel.release =
      Except.error "At least one between tag and branch must be specified" := by
  constructor
  · have h := (c6_release_resolution pkg5).2.1 "feature/bullseye" (by decide) (by decide)
    exact h.trans (by decide)
  · exact (c6_release_resolution pNoRel).2.2.mpr (by decide)

/-- C1 (code bug): the repository `repoC1` has a reachable prefixed tag and
`git describe` would report it — the intended second strategy would produce
`"1.2.3"` — yet with no tag supplied the resolved version falls through to
the `"0.0.0"` default, because `none_on_exception` always returns `None`. -/
theorem c1_describe_strategy_never_fires :
    describe_strategy repoC1 "hybris-mobian/" = some "1.2.3" ∧
    SlimPackage.version pC1 =
      Except.ok "0.0.0+git19700101000000.ccccccc.release" := by
  exact ⟨by decide, by decide⟩

/-- Counterexample to C3 as stated: at this input the version is
`0.0.0+git19700101000000.ccccccc.release` — the timestamp and the 7-character
short hash are separated by a `.`, not adjacent. -/
theorem c3_counterexample :
    SlimPackage.version pC3 =
      Except.ok "0.0.0+git19700101000000.ccccccc.release" ∧
    "0.0.0+git19700101000000.ccccccc.release" ≠
      "0.0.0+git19700101000000" ++ "ccccccc" ++ ".release" := by
  exact ⟨by decide, by decide⟩

/-- C3 (amended): the full version equals the base version, `+git`, the
committed time of the target commit as `YYYYMMDDHHMMSS`, a `.`, the
7-character short hash, a `.`, and the slugified comment — timestamp and
short hash are separated by a dot. -/
theorem c3_version_shape (p : SlimPackage) (c : Commit)
    (h : p.git_repository.log.find? (fun k => k.hexsha == p.commit_hash) = some c) :
    SlimPackage.version p =
      Except.ok (p.startingVersion ++ "+git" ++ formatTimestamp c.committed_date ++
        "." ++ pyTakeStr p.commit_hash 7 ++ "." ++ p.comment) := by
  unfold SlimPackage.version
  rw [h]
  simp only [joinWith, String.append_assoc]

/-- Witness for C3's amended statement on the single-root repository. -/
theorem c3_version_shape_witness :
    pC3.git_repository.log.find? (fun k => k.hexsha == pC3.commit_hash) = some rootC ∧
    SlimPackage.version pC3 =
      Except.ok (pC3.startingVersion ++ "+git" ++ formatTimestamp rootC.committed_date ++
        "." ++ pyTakeStr pC3.commit_hash 7 ++ "." ++ pC3.comment) :=
  ⟨by decide, c3_version_shape pC3 rootC (by decide)⟩

/-- Replacing a single-character pattern is a character-wise substitution. -/
theorem replaceGo_singleton (p r : Char) (l : List Char) :
    replaceGo [p] [r] 0 l = l.map (fun c => if c == p then r else c) := by
  induction l with
  | nil => rfl
  | cons c cs ih =>
    by_cases h : p = c
    · subst h
      simp [replaceGo, List.isPrefixOf, ih]
    · simp [replaceGo, List.isPrefixOf, h, Ne.symm h, ih]

/-- The two replacements of `sanitize_tag_version`, on character lists. -/
theorem sanitize_tag_version_data (v : String) :
    (sanitize_tag_version v).data =
      (v.data.map (fun c => if c == '_' then '~' else c)).map
        (fun c => if c == '%' then ':' else c) := by
  show (String.mk (replaceGo ['%'] [':'] 0
      (String.mk (replaceGo ['_'] ['~'] 0 v.data)).data)).data = _
  simp [replaceGo_singleton]

/-- C4 (amended): `sanitize_tag_version` substitutes every `_` by `~` and
every `%` by `:`, character by character, so its output — the version as
rendered inside each changelog stanza — never contains `_` or `%`.  (The
version printed to standard output is not sanitized; see the
counterexample.) -/
theorem c4_sanitized_version_clean (v : String) :
    (sanitize_tag_version v).data =
      v.data.map (fun c => if c == '_' then '~' else if c == '%' then ':' else c) ∧
    '_' ∉ (sanitize_tag_version v).data ∧ '%' ∉ (sanitize_tag_version v).data := by
  have hdata : (sanitize_tag_version v).data =
      v.data.map (fun c => if c == '_' then '~' else if c == '%' then ':' else c) := by
    rw [sanitize_tag_version_data, List.map_map]
    refine List.map_congr_left (fun c _ => ?_)
    by_cases h1 : c = '_'
    · subst h1; decide
    · by_cases h2 : c = '%'
      · subst h2; decide
      · simp [Function.comp, h1, h2]
  refine ⟨hdata, ?_, ?_⟩
  · rw [hdata]
    intro hmem
    obtain ⟨c, _, hc⟩ := List.mem_map.1 hmem
    by_cases h1 : c = '_'
    · subst h1; revert hc; decide
    · by_cases h2 : c = '%'
      · subst h2; revert hc; decide
      · simp [h1, h2] at hc
  · rw [hdata]
    intro hmem
    obtain ⟨c, _, hc⟩ := List.mem_map.1 hmem
    by_cases h1 : c = '_'
    · subst h1; revert hc; decide
    · by_cases h2 : c = '%'
      · subst h2; revert hc; decide
      · simp [h1, h2] at hc

/-- Counterexample to C4 as stated: the version printed to standard output
keeps the `_` of the supplied tag — only the stanza-internal version is
sanitized. -/
theorem c4_counterexample :
    (mainRun pC4).printed =
      some "I: Resulting version is 1.2_3+git19700101000000.ccccccc.release" ∧
    '_' ∈ ("I: Resulting version is 1.2_3+git19700101000000.ccccccc.release").data := by
  exact ⟨by decide, by decide⟩

/-- C7: a single-author entry body is just the `  * message` lines; a
multi-author entry body prefixes each author's block with a `  [ author ]`
header line, blocks in insertion order, joined by blank lines. -/
theorem c7_render_bodies :
    (∀ (a : String) (ms : List String),
      renderContent [(a, ms)] = joinWith "\n" (ms.map (fun m => "  * " ++ m))) ∧
    (∀ contents : List (String × List String), 1 < contents.length →
      renderContent contents = joinWith "\n\n" (contents.map (fun kv =>
        "  [ " ++ kv.1 ++ " ]\n" ++
          joinWith "\n" (kv.2.map (fun m => "  * " ++ m))))) := by
  constructor
  · intro a ms
    simp [renderContent, joinWith]
  · intro contents h
    simp only [renderContent, gt_iff_lt, h, if_true]

/-- Witness for C7: one single-author body without header, one two-author
body with headers and a blank line between the blocks. -/
theorem c7_render_bodies_witness :
    renderContent [("Alice", ["one", "two"])] = "  * one\n  * two" ∧
    1 < ([("Alice", ["one"]), ("Bob", ["two"])] : List (String × List String)).length ∧
    renderContent [("Alice", ["one"]), ("Bob", ["two"])] =
      "  [ Alice ]\n  * one\n\n  [ Bob ]\n  * two" := by
  refine ⟨?_, by decide, ?_⟩
  · exact (c7_render_bodies.1 "Alice" ["one", "two"]).trans (by decide)
  · exact (c7_render_bodies.2 [("Alice", ["one"]), ("Bob", ["two"])] (by decide)).trans
      (by decide)

/-- Inside a run already replaced, the remaining run characters are skipped. -/
theorem slugGo_true_eq (cs : List Char) :
    slugGo true cs = slugGo false (cs.dropWhile (fun d => !(slugAllowed d))) := by
  induction cs with
  | nil => rfl
  | cons c cs ih =>
    cases h : slugAllowed c with
    | true => simp [slugGo, h, List.dropWhile, h]
    | false => simp [slugGo, h, List.dropWhile, ih]

/-- The regex-sub model and the maximal-run description agree. -/
theorem slugGo_eq_slugRunsSpec (l : List Char) : slugGo false l = slugRunsSpec l := by
  induction l using slugRunsSpec.induct with
  | case1 => simp [slugGo, slugRunsSpec]
  | case2 c cs h ih => simp [slugGo, slugRunsSpec, h, ih]
  | case3 c cs h ih => simp [slugGo, slugRunsSpec, h, slugGo_true_eq, ih]

/-- C9: `slugify(s)` is `s` lowercased with every maximal run of characters
outside `[a-z0-9_]` replaced by a single `.`. -/
theorem c9_slugify_maximal_runs (s : String) : slugify s = slugifySpec s := by
  unfold slugify slugifySpec
  rw [slugGo_eq_slugRunsSpec]

/-- Computation of `odLookup` on a cons cell. -/
theorem odLookup_cons (kv : String × List String) (ct : List (String × List String))
    (a : String) :
    odLookup (kv :: ct) a = if kv.1 = a then some kv.2 else odLookup ct a := by
  by_cases h : kv.1 = a
  · simp [odLookup, List.find?_cons, h]
  · simp [odLookup, List.find?_cons, h]

/-- Inserting under a key different from the head key walks past the head. -/
theorem odInsert_cons_ne (kv : String × List String) (ct : List (String × List String))
    (b m : String) (hk : kv.1 ≠ b) :
    odInsert (kv :: ct) b m = kv :: odInsert ct b m := by
  have hkb : (kv.1 == b) = false := by simp [hk]
  cases hany : ct.any (fun kv => kv.1 == b) with
  | true => simp [odInsert, List.any_cons, hkb, hany, hk]
  | false => simp [odInsert, List.any_cons, hkb, hany]

/-- Prepending a message under key `b` leaves lookups of other keys alone. -/
theorem odLookup_map_prepend_ne (ct : List (String × List String)) (b m a : String)
    (hab : a ≠ b) :
    odLookup (ct.map (fun kv => if kv.1 = b then (kv.1, m :: kv.2) else kv)) a =
      odLookup ct a := by
  induction ct with
  | nil => rfl
  | cons kv ct ih =>
    by_cases hk : kv.1 = b
    · have hka : kv.1 ≠ a := by rw [hk]; exact Ne.symm hab
      simp [List.map_cons, odLookup_cons, hk, hka, Ne.symm hab, ih]
    · by_cases ha2 : kv.1 = a
      · have hab2 : a ≠ b := by rw [← ha2]; exact hk
        simp [List.map_cons, odLookup_cons, hk, ha2, hab2]
      · simp [List.map_cons, odLookup_cons, hk, ha2, ih]

/-- Effect of `odInsert` on `odLookup`: the inserted message is prepended to
the key's list (empty when the key is new), other keys are untouched. -/
theorem odLookup_odInsert (ct : List (String × List String)) (b m a : String) :
    odLookup (odInsert ct b m) a =
      if a = b then some (m :: (odLookup ct b).getD []) else odLookup ct a := by
  induction ct with
  | nil =>
    by_cases hab : a = b
    · subst hab; simp [odInsert, odLookup]
    · simp [odInsert, odLookup, List.find?_cons, Ne.symm hab, hab]
  | cons kv ct ih =>
    by_cases hk : kv.1 = b
    · have hany : (kv :: ct).any (fun kv => kv.1 == b) = true := by simp [hk]
      have hmap : odInsert (kv :: ct) b m =
          (kv.1, m :: kv.2) ::
            ct.map (fun kv => if kv.1 = b then (kv.1, m :: kv.2) else kv) := by
        simp [odInsert, hany, hk]
      rw [hmap]
      by_cases hab : a = b
      · subst hab
        simp [odLookup_cons, hk]
      · have hka : kv.1 ≠ a := by rw [hk]; exact fun he => hab he.symm
        simp [odLookup_cons, hka, hab, odLookup_map_prepend_ne ct b m a hab]
    · rw [odInsert_cons_ne kv ct b m hk]
      by_cases ha2 : kv.1 = a
      · have hab : ¬ a = b := fun he => hk (by rw [ha2, he])
        simp [odLookup_cons, ha2, hab]
      · by_cases hab : a = b
        · subst hab
          simp [odLookup_cons, ha2, ih, hk]
        · simp [odLookup_cons, ha2, hab, ih]

/-- Folding the per-commit insertion over a commit list: each author's list
ends up holding that author's messages in reverse encounter order, on top of
whatever the initial mapping already held. -/
theorem odLookup_foldl_insert (cs : List Commit) :
    ∀ (init : List (String × List String)) (a : String),
    odLookup (cs.foldl (fun ct c => odInsert ct c.author_name (firstLine c.message)) init) a =
      match odLookup init a with
      | some l => some ((authorMsgs cs a).reverse ++ l)
      | none =>
        if authorMsgs cs a = [] then none else some (authorMsgs cs a).reverse := by
  induction cs with
  | nil =>
    intro init a
    cases h : odLookup init a <;> simp [h, authorMsgs]
  | cons c cs ih =>
    intro init a
    rw [List.foldl_cons, ih, odLookup_odInsert]
    by_cases hac : a = c.author_name
    · subst hac
      have hfil : authorMsgs (c :: cs) c.author_name =
          firstLine c.message :: authorMsgs cs c.author_name := by
        simp [authorMsgs, List.filter_cons]
      rw [hfil]
      cases hinit : odLookup init c.author_name with
      | some l => simp [List.reverse_cons, List.append_assoc]
      | none => simp [List.reverse_cons]
    · have hca : (c.author_name == a) = false := by
        simp
        exact fun he => hac he.symm
      have hfil : authorMsgs (c :: cs) a = authorMsgs cs a := by
        simp [authorMsgs, List.filter_cons, hca]
      rw [if_neg hac, hfil]

/-- Folding `addCommit` only threads the `contents` field through `odInsert`. -/
theorem foldl_addCommit_contents (cs : List Commit) :
    ∀ e : ChangelogEntry,
    (cs.foldl addCommit e).contents =
      cs.foldl (fun ct c => odInsert ct c.author_name (firstLine c.message)) e.contents := by
  induction cs with
  | nil => intro e; rfl
  | cons c cs ih =>
    intro e
    rw [List.foldl_cons, List.foldl_cons, ih]
    rfl

/-- C8: in the entry accumulated over a walk segment, each author's list is
exactly that author's first message lines in reverse encounter order — the
walk visits commits newest first and inserts at position 0, so at
finalization the list is oldest first. -/
theorem c8_author_messages_oldest_first (c : Commit) (cs : List Commit) (a : String) :
    odLookup (segEntry c cs).contents a =
      if authorMsgs (c :: cs) a = [] then none
      else some (authorMsgs (c :: cs) a).reverse := by
  have h1 : (segEntry c cs).contents =
      (c :: cs).foldl (fun ct k => odInsert ct k.author_name (firstLine k.message)) [] := by
    rw [List.foldl_cons]
    unfold segEntry
    rw [foldl_addCommit_contents]
    rfl
  rw [h1, odLookup_foldl_insert]
  rfl

/-- The walk passes over a run of non-boundary commits accumulating them into
the in-progress entry, emitting nothing and leaving `nearest_version`
untouched. -/
theorem walk_skip (tags : List (String × String)) (startHash : String)
    (nameE : Except String String) :
    ∀ (cs rest : List Commit) (nearest : String) (e : ChangelogEntry),
    (∀ c ∈ cs, lookupTag tags c.hexsha = none ∧ c.parents ≠ []) →
    walk tags startHash nameE nearest (some e) (cs ++ rest) =
      walk tags startHash nameE nearest (some (cs.foldl addCommit e)) rest := by
  intro cs
  induction cs with
  | nil => intro rest nearest e _; rfl
  | cons c cs ih =>
    intro rest nearest e h
    have hc := h c (List.mem_cons_self c cs)
    have hb : isBoundary tags startHash c = false := by
      simp [isBoundary, hc.1, hc.2]
    rw [List.cons_append]
    simp only [walk, hb, Bool.false_eq_true, if_false, Option.getD_some, List.foldl_cons]
    exact ih rest nearest (addCommit e c) (fun k hk => h k (List.mem_cons_of_mem c hk))

/-- When the package name lookup raises and a boundary commit lies ahead, the
walk (entered with an entry in progress and a well-formed
`nearest_version`) emits nothing and propagates the name error. -/
theorem walk_name_error (tags : List (String × String)) (startHash : String)
    (msg r v : String) :
    ∀ (cs : List Commit) (nearest : String) (e : ChangelogEntry),
    pySplit nearest "/" = [r, v] →
    (∃ c ∈ cs, isBoundary tags startHash c = true) →
    walk tags startHash (Except.error msg) nearest (some e) cs = ([], some msg) := by
  intro cs
  induction cs with
  | nil =>
    intro nearest e _ hex
    simp at hex
  | cons c cs ih =>
    intro nearest e hsp hex
    cases hb : isBoundary tags startHash c with
    | true =>
      simp only [walk, hb, if_true]
      rw [hsp]
      cases hpe : c.parents.isEmpty with
      | true => simp [hpe]
      | false => simp [hpe]
    | false =>
      have hex' : ∃ k ∈ cs, isBoundary tags startHash k = true := by
        obtain ⟨k, hk, hbk⟩ := hex
        cases List.mem_cons.1 hk with
        | inl he =>
          rw [he, hb] at hbk
          cases hbk
        | inr h2 => exact ⟨k, h2, hbk⟩
      simp only [walk, hb, Bool.false_eq_true, if_false, Option.getD_some]
      exact ih nearest (addCommit e c) hsp hex'

/-- A list whose last element is parentless contains a parentless commit. -/
theorem exists_parentless_of_getLast (l : List Commit)
    (h : (l.getLast?).map Commit.parents = some []) : ∃ k ∈ l, k.parents = [] := by
  induction l with
  | nil => simp at h
  | cons a l ih =>
    cases l with
    | nil =>
      simp [List.getLast?] at h
      exact ⟨a, List.mem_cons_self a [], h⟩
    | cons b m =>
      rw [List.getLast?_cons_cons] at h
      obtain ⟨k, hk, hp⟩ := ih h
      exact ⟨k, List.mem_cons_of_mem a hk, hp⟩

/-- Counterexample to C2 as stated: on a repository lacking `debian/control`
the run does fail with the descriptive message, but `debian/changelog` has
already been opened for writing (mode `"w"`, truncating any prior contents)
before the lazy generator raises. -/
theorem c2_counterexample :
    (mainRun pC2).changelogOpened = true ∧
    (mainRun pC2).fatalError = some "Unable to find debian/control" := by
  exact ⟨by decide, by decide⟩

/-- C2 (amended): for every run against a working directory lacking
`debian/control` (with a resolvable release, a resolvable version whose
`release/version` pair splits back into its two components, the walk starting
at the start commit, and a parentless commit closing the history), the
program prints the version, opens `debian/changelog` for writing — truncating
any prior contents — and only then aborts with
`Unable to find debian/control`, having written no stanza. -/
theorem c2_missing_control (p : SlimPackage) (rel ver : String) (c : Commit)
    (cs : List Commit)
    (hctl : lookupFile p.git_repository.files "debian/control" = none)
    (hrel : p.release = Except.ok rel)
    (hver : p.version = Except.ok ver)
    (hsplit : pySplit (rel ++ "/" ++ ver) "/" = [rel, ver])
    (hlog : p.git_repository.log = c :: cs)
    (hstart : c.hexsha = p.commit_hash)
    (hlast : (p.git_repository.log.getLast?).map Commit.parents = some []) :
    mainRun p = ⟨some ("I: Resulting version is " ++ ver), true, [],
      some "Unable to find debian/control"⟩ := by
  have hname : p.name = Except.error "Unable to find debian/control" := by
    unfold SlimPackage.name
    rw [hctl]
  have hic : p.iter_changelog = ([], some "Unable to find debian/control") := by
    unfold SlimPackage.iter_changelog
    rw [hrel, hver, hname, hlog]
    cases hb : isBoundary (tagsMap p) p.commit_hash c with
    | true =>
      have hpe : c.parents.isEmpty = true := by
        revert hb
        simp [isBoundary, hstart]
      simp only [walk, hb, if_true]
      rw [hsplit]
      simp [hpe]
    | false =>
      have hcne : c.parents ≠ [] := by
        intro hnil
        have hbt : isBoundary (tagsMap p) p.commit_hash c = true := by
          simp [isBoundary, hnil]
        rw [hbt] at hb
        exact absurd hb (by decide)
      have hex : ∃ k ∈ cs, isBoundary (tagsMap p) p.commit_hash k = true := by
        rw [hlog] at hlast
        obtain ⟨k, hk, hp⟩ := exists_parentless_of_getLast (c :: cs) hlast
        cases List.mem_cons.1 hk with
        | inl he =>
          rw [he] at hp
          exact absurd hp hcne
        | inr h2 =>
          refine ⟨k, h2, ?_⟩
          simp [isBoundary, hp]
      simp only [walk, hb, Bool.false_eq_true, if_false, Option.getD_some]
      exact walk_name_error (tagsMap p) p.commit_hash "Unable to find debian/control"
        rel ver cs (rel ++ "/" ++ ver) (addCommit (newEntry c) c) hsplit hex
  unfold mainRun
  rw [hver, hic]

/-- Witness for C2's amended statement on the concrete control-less
repository. -/
theorem c2_missing_control_witness :
    mainRun pC2 = ⟨some "I: Resulting version is 9.9.9+git19700101000000.ccccccc.release",
      true, [], some "Unable to find debian/control"⟩ := by
  have h := c2_missing_control pC2 "bullseye" "9.9.9+git19700101000000.ccccccc.release"
    rootC [] (by decide) (by decide) (by decide) (by decide) (by decide) (by decide)
    (by decide)
  exact h

/-- Appending one commit to a segment entry. -/
theorem segEntry_append_one (c : Commit) (cs : List Commit) (k : Commit) :
    addCommit (segEntry c cs) k = segEntry c (cs ++ [k]) := by
  unfold segEntry
  rw [List.foldl_append]
  rfl

/-- C5: with exactly one prefixed tag `T` in the walk — `M ≥ 1` commits from
the start commit down to just above `T`, then `T`, then the commits down to
and including the root — the generator yields exactly two stanzas, newest
first: the first renders the entry spanning the `M` commits above `T` under
the resolved release/version, the second renders the entry spanning `T`
through the root under the tag's own release/version pair. -/
theorem c5_two_stanzas (p : SlimPackage) (hd : Commit) (mid : List Commit)
    (T : Commit) (older : List Commit) (root : Commit)
    (nm rel ver tval tr tv : String)
    (hlog : p.git_repository.log = hd :: (mid ++ T :: (older ++ [root])))
    (hstart : hd.hexsha = p.commit_hash)
    (hhdpar : hd.parents ≠ [])
    (hname : p.name = Except.ok nm)
    (hrel : p.release = Except.ok rel)
    (hver : p.version = Except.ok ver)
    (hsplit0 : pySplit (rel ++ "/" ++ ver) "/" = [rel, ver])
    (hmid : ∀ c ∈ mid, lookupTag (tagsMap p) c.hexsha = none ∧ c.parents ≠ [])
    (hT : lookupTag (tagsMap p) T.hexsha = some tval)
    (hTne : T.hexsha ≠ p.commit_hash)
    (hTpar : T.parents ≠ [])
    (hsplitT : pySplit tval "/" = [tr, tv])
    (holder : ∀ c ∈ older, lookupTag (tagsMap p) c.hexsha = none ∧ c.parents ≠ [])
    (hroot : root.parents = []) :
    p.iter_changelog =
      ([DEBIAN_CHANGELOG_TEMPLATE nm (sanitize_tag_version ver) rel
          (renderContent (segEntry hd mid).contents)
          (segEntry hd mid).author (segEntry hd mid).mail (segEntry hd mid).date,
        DEBIAN_CHANGELOG_TEMPLATE nm (sanitize_tag_version tv) tr
          (renderContent (segEntry T (older ++ [root])).contents)
          (segEntry T (older ++ [root])).author (segEntry T (older ++ [root])).mail
          (segEntry T (older ++ [root])).date], none) := by
  unfold SlimPackage.iter_changelog
  rw [hrel, hver, hlog]
  have hbhd : isBoundary (tagsMap p) p.commit_hash hd = false := by
    simp [isBoundary, hstart, hhdpar]
  simp only [walk, hbhd, Bool.false_eq_true, if_false, Option.getD_none]
  rw [walk_skip (tagsMap p) p.commit_hash p.name mid (T :: (older ++ [root]))
    (rel ++ "/" ++ ver) (addCommit (newEntry hd) hd) hmid]
  have hseg1 : mid.foldl addCommit (addCommit (newEntry hd) hd) = segEntry hd mid := rfl
  rw [hseg1]
  have hbT : isBoundary (tagsMap p) p.commit_hash T = true := by
    simp [isBoundary, hT, hTne]
  have hTpe : T.parents.isEmpty = false := by simp [hTpar]
  simp only [walk, hbT, if_true]
  rw [hsplit0]
  simp only [hTpe, Bool.false_eq_true, if_false]
  rw [hname]
  simp only [hT, Option.getD_some]
  rw [walk_skip (tagsMap p) p.commit_hash (Except.ok nm) older [root] tval
    (addCommit (newEntry T) T) holder]
  have hseg2 : older.foldl addCommit (addCommit (newEntry T) T) = segEntry T older := rfl
  rw [hseg2]
  have hbroot : isBoundary (tagsMap p) p.commit_hash root = true := by
    simp [isBoundary, hroot]
  have hrpe : root.parents.isEmpty = true := by simp [hroot]
  simp only [walk, hbroot, if_true]
  rw [hsplitT]
  simp only [hrpe, if_true, Option.getD_some]
  rw [segEntry_append_one]

/-- Witness for C5 on the three-commit repository: one commit above the
tagged commit, the root below it, exactly two stanzas. -/
theorem c5_two_stanzas_witness :
    pkg5.iter_changelog =
      ([DEBIAN_CHANGELOG_TEMPLATE "foo"
          (sanitize_tag_version "0.0.0+git19700103000000.aaaaaaa.release") "bullseye"
          (renderContent (segEntry headC []).contents)
          (segEntry headC []).author (segEntry headC []).mail (segEntry headC []).date,
        DEBIAN_CHANGELOG_TEMPLATE "foo" (sanitize_tag_version "1.0") "bullseye"
          (renderContent (segEntry tagC ([] ++ [rootC])).contents)
          (segEntry tagC ([] ++ [rootC])).author (segEntry tagC ([] ++ [rootC])).mail
          (segEntry tagC ([] ++ [rootC])).date], none) := by
  exact c5_two_stanzas pkg5 headC [] tagC [] rootC "foo" "bullseye"
    "0.0.0+git19700103000000.aaaaaaa.release" "bullseye/1.0" "bullseye" "1.0"
    (by decide) (by decide) (by decide) (by decide) (by decide) (by decide) (by decide)
    (by simp) (by decide) (by decide) (by decide) (by decide) (by simp) (by decide)
